import Mathlib

/-!
Verification of the JSON-repair and template-management logic of the
`ai_helper` backend (`src/app.py`, `src/template_builder.py`,
`src/templates.py`).

Shallow embedding conventions:
  * Text is modelled as `List Char` (`Chars`).
  * Python's `json.loads` / `json.dumps` are external standard-library
    collaborators; they are modelled here on the fragment the program
    exercises: objects, arrays, strings without escape sequences, integer
    numerals, `true`/`false`/`null`, with the four JSON whitespace
    characters between tokens.  Floats, exponents, `NaN`/`Infinity` and
    string escapes are outside the modelled fragment.  `json.dumps` is
    modelled with its default separators `", "` and `": "`.
  * Python `dict` semantics (insertion order, assignment to an existing
    key replaces the value in place) are modelled by `dictInsert`.
  * The regex substitutions of `app.py` lines 376-378 are modelled as
    direct left-to-right scanners with exactly the match/replace
    semantics of `re.sub` on those patterns (see each definition).
-/

abbrev Chars := List Char

/-- JSON values as produced by the modelled `json.loads`: numbers keep
their literal sign and digit string, objects keep insertion order. -/
inductive Json where
  | null
  | bool (b : Bool)
  | num (neg : Bool) (ds : Chars)
  | str (cs : Chars)
  | arr (l : List Json)
  | obj (m : List (Chars × Json))

instance : Inhabited Json := ⟨.null⟩

mutual

/-- Structural equality test for `Json`, recursing through the nested
list positions. -/
def jsonBeq : Json → Json → Bool
  | .null, .null => true
  | .bool a, .bool b => a == b
  | .num n1 d1, .num n2 d2 => n1 == n2 && d1 == d2
  | .str a, .str b => a == b
  | .arr a, .arr b => jsonBeqList a b
  | .obj a, .obj b => jsonBeqMembers a b
  | _, _ => false

def jsonBeqList : List Json → List Json → Bool
  | [], [] => true
  | x :: xs, y :: ys => jsonBeq x y && jsonBeqList xs ys
  | _, _ => false

def jsonBeqMembers : List (Chars × Json) → List (Chars × Json) → Bool
  | [], [] => true
  | (k1, v1) :: xs, (k2, v2) :: ys => k1 == k2 && jsonBeq v1 v2 && jsonBeqMembers xs ys
  | _, _ => false

end

mutual

theorem jsonBeq_iff : ∀ a b : Json, jsonBeq a b = true ↔ a = b
  | .null, .null => by simp [jsonBeq]
  | .bool _, .bool _ => by simp [jsonBeq]
  | .num _ _, .num _ _ => by simp [jsonBeq]
  | .str _, .str _ => by simp [jsonBeq]
  | .arr x, .arr y => by simp [jsonBeq, jsonBeqList_iff x y]
  | .obj x, .obj y => by simp [jsonBeq, jsonBeqMembers_iff x y]
  | .null, .bool _ | .null, .num _ _ | .null, .str _ | .null, .arr _ | .null, .obj _
  | .bool _, .null | .bool _, .num _ _ | .bool _, .str _ | .bool _, .arr _ | .bool _, .obj _
  | .num _ _, .null | .num _ _, .bool _ | .num _ _, .str _ | .num _ _, .arr _
  | .num _ _, .obj _
  | .str _, .null | .str _, .bool _ | .str _, .num _ _ | .str _, .arr _ | .str _, .obj _
  | .arr _, .null | .arr _, .bool _ | .arr _, .num _ _ | .arr _, .str _ | .arr _, .obj _
  | .obj _, .null | .obj _, .bool _ | .obj _, .num _ _ | .obj _, .str _
  | .obj _, .arr _ => by simp [jsonBeq]

theorem jsonBeqList_iff : ∀ xs ys : List Json, jsonBeqList xs ys = true ↔ xs = ys
  | [], [] => by simp [jsonBeqList]
  | x :: xs, y :: ys => by simp [jsonBeqList, jsonBeq_iff x y, jsonBeqList_iff xs ys]
  | [], _ :: _ => by simp [jsonBeqList]
  | _ :: _, [] => by simp [jsonBeqList]

theorem jsonBeqMembers_iff :
    ∀ xs ys : List (Chars × Json), jsonBeqMembers xs ys = true ↔ xs = ys
  | [], [] => by simp [jsonBeqMembers]
  | (k1, v1) :: xs, (k2, v2) :: ys => by
    simp [jsonBeqMembers, jsonBeq_iff v1 v2, jsonBeqMembers_iff xs ys, and_assoc]
  | [], _ :: _ => by simp [jsonBeqMembers]
  | _ :: _, [] => by simp [jsonBeqMembers]

end

instance : DecidableEq Json := fun a b => decidable_of_iff _ (jsonBeq_iff a b)

/-- Induction principle for the nested inductive `Json` that provides the
inductive hypothesis for every element of an array and every value of an
object. -/
theorem Json.myInd (P : Json → Prop) (h0 : P .null) (h1 : ∀ b, P (.bool b))
    (h2 : ∀ n d, P (.num n d)) (h3 : ∀ s, P (.str s))
    (h4 : ∀ l, (∀ v ∈ l, P v) → P (.arr l))
    (h5 : ∀ m, (∀ kv ∈ m, P kv.2) → P (.obj m)) : ∀ v, P v := by
  have H : ∀ n v, sizeOf v ≤ n → P v := by
    intro n
    induction n using Nat.strong_induction_on with
    | _ n ih =>
      intro v hv
      match v with
      | .null => exact h0
      | .bool b => exact h1 b
      | .num ng d => exact h2 ng d
      | .str s => exact h3 s
      | .arr l =>
        refine h4 l (fun x hx => ?_)
        have hlt : sizeOf x < sizeOf (Json.arr l) := by
          have := List.sizeOf_lt_of_mem hx
          simp only [Json.arr.sizeOf_spec]
          omega
        exact ih (sizeOf x) (by omega) x le_rfl
      | .obj m =>
        refine h5 m (fun kv hkv => ?_)
        have hlt : sizeOf kv.2 < sizeOf (Json.obj m) := by
          have h := List.sizeOf_lt_of_mem hkv
          have h2 : sizeOf kv.2 < sizeOf kv := by
            match kv with
            | (a, b) => simp
          simp only [Json.obj.sizeOf_spec]
          omega
        exact ih (sizeOf kv.2) (by omega) kv.2 le_rfl
  exact fun v => H (sizeOf v) v le_rfl

/-- The four JSON whitespace characters accepted between tokens by
Python's `json` module. -/
def jsonWsChar (c : Char) : Bool := c = ' ' || c = '\t' || c = '\n' || c = '\r'

/-- A character that may stand unescaped in a modelled JSON string:
not a quote, not a backslash, not a control character. -/
def okStrChar (c : Char) : Bool := !(c = '"') && !(c = '\\') && !(c.toNat < 32)

/-- Keys pairwise distinct, as in a Python `dict`. -/
def nodupKeysB : List (Chars × Json) → Bool
  | [] => true
  | kv :: m => !(m.any (fun kv2 => kv2.1 = kv.1)) && nodupKeysB m

mutual

/-- Well-formedness of a `Json` value: exactly the invariant every value
produced by the modelled parser satisfies (nonempty digit strings,
escape-free printable strings, `dict`-like objects). -/
def wfJson : Json → Bool
  | .null => true
  | .bool _ => true
  | .num _ ds => !ds.isEmpty && ds.all Char.isDigit
  | .str cs => cs.all okStrChar
  | .arr l => wfList l
  | .obj m => nodupKeysB m && wfMembers m

def wfList : List Json → Bool
  | [] => true
  | x :: xs => wfJson x && wfList xs

def wfMembers : List (Chars × Json) → Bool
  | [] => true
  | kv :: m => kv.1.all okStrChar && wfJson kv.2 && wfMembers m

end

theorem wfList_iff : ∀ l : List Json, wfList l = true ↔ ∀ v ∈ l, wfJson v = true
  | [] => by simp [wfList]
  | x :: xs => by simp [wfList, wfList_iff xs]

theorem wfMembers_iff : ∀ m : List (Chars × Json),
    wfMembers m = true ↔ ∀ kv ∈ m, kv.1.all okStrChar = true ∧ wfJson kv.2 = true
  | [] => by simp [wfMembers]
  | kv :: m => by simp [wfMembers, wfMembers_iff m]

/-- The serialized spelling of the three JSON keyword literals. -/
def nullLit : Chars := ['n', 'u', 'l', 'l']

def trueLit : Chars := ['t', 'r', 'u', 'e']

def falseLit : Chars := ['f', 'a', 'l', 's', 'e']

mutual

/-- Canonical serialization: models `json.dumps` with its default
separators `", "` and `": "` on the modelled fragment. -/
def dumpJson : Json → Chars
  | .null => nullLit
  | .bool true => trueLit
  | .bool false => falseLit
  | .num neg ds => (if neg then ['-'] else []) ++ ds
  | .str cs => '"' :: cs ++ ['"']
  | .arr [] => ['[', ']']
  | .arr (x :: xs) => '[' :: (dumpJson x ++ dumpList xs) ++ [']']
  | .obj [] => ['{', '}']
  | .obj ((k, v) :: m) =>
      '{' :: ('"' :: k ++ '"' :: ':' :: ' ' :: dumpJson v ++ dumpMembers m) ++ ['}']

def dumpList : List Json → Chars
  | [] => []
  | x :: xs => ',' :: ' ' :: dumpJson x ++ dumpList xs

def dumpMembers : List (Chars × Json) → Chars
  | [] => []
  | (k, v) :: m => ',' :: ' ' :: '"' :: k ++ '"' :: ':' :: ' ' :: dumpJson v ++ dumpMembers m

end

/-- Skip JSON whitespace, as the `_w(s, end)` steps of Python's decoder do. -/
def skipWs : Chars → Chars
  | [] => []
  | c :: cs => if jsonWsChar c then skipWs cs else c :: cs

/-- Parse the body of a JSON string after the opening quote, up to the
closing quote.  Escapes and raw control characters are rejected (the
modelled fragment is escape-free). -/
def parseStrBody : Chars → Option (Chars × Chars)
  | [] => none
  | c :: cs =>
    if c = '"' then some ([], cs)
    else if c = '\\' || c.toNat < 32 then none
    else
      match parseStrBody cs with
      | some (b, r) => some (c :: b, r)
      | none => none

/-- Consume an expected literal (used for `null`, `true`, `false`). -/
def expectLit : Chars → Chars → Option Chars
  | [], cs => some cs
  | _ :: _, [] => none
  | l :: ls, c :: cs => if c = l then expectLit ls cs else none

/-- Parse an integer numeral: optional minus sign, then a nonempty digit
run (the integer fragment of the JSON number grammar). -/
def parseNum (cs : Chars) : Option (Json × Chars) :=
  match cs with
  | '-' :: t =>
    if (t.takeWhile Char.isDigit).isEmpty then none
    else some (.num true (t.takeWhile Char.isDigit), t.drop (t.takeWhile Char.isDigit).length)
  | t =>
    if (t.takeWhile Char.isDigit).isEmpty then none
    else some (.num false (t.takeWhile Char.isDigit), t.drop (t.takeWhile Char.isDigit).length)

/-- Assignment to a Python `dict`: replace in place if the key exists,
else append. -/
def dictInsert : List (Chars × Json) → Chars → Json → List (Chars × Json)
  | [], k, v => [(k, v)]
  | (k0, v0) :: m, k, v =>
    if k0 = k then (k0, v) :: m else (k0, v0) :: dictInsert m k v

/-- Build a Python `dict` from parsed key/value pairs in order:
a repeated key keeps its first position and takes the last value,
as `json.loads` does. -/
def dictOfPairs (pairs : List (Chars × Json)) : List (Chars × Json) :=
  pairs.foldl (fun acc kv => dictInsert acc kv.1 kv.2) []

mutual

/-- Parse one JSON value.  The fuel argument only bounds the recursion;
`2 * length + 1` units always suffice because every two nested calls
consume at least one input character (a `parseVal` call from
`parseElems`/`parseMembers` re-reads its position, but was itself
reached by consuming the opening bracket or a separator). -/
def parseVal : Nat → Chars → Option (Json × Chars)
  | 0, _ => none
  | f + 1, cs =>
    match cs with
    | [] => none
    | c :: rest =>
      if c = '{' then
        match skipWs rest with
        | '}' :: r2 => some (.obj [], r2)
        | r1 =>
          match parseMembers f r1 with
          | some (m, r2) => some (.obj (dictOfPairs m), r2)
          | none => none
      else if c = '[' then
        match skipWs rest with
        | ']' :: r2 => some (.arr [], r2)
        | r1 =>
          match parseElems f r1 with
          | some (l, r2) => some (.arr l, r2)
          | none => none
      else if c = '"' then
        match parseStrBody rest with
        | some (b, r) => some (.str b, r)
        | none => none
      else if c = 'n' then
        match expectLit ['u', 'l', 'l'] rest with
        | some r => some (.null, r)
        | none => none
      else if c = 't' then
        match expectLit ['r', 'u', 'e'] rest with
        | some r => some (.bool true, r)
        | none => none
      else if c = 'f' then
        match expectLit ['a', 'l', 's', 'e'] rest with
        | some r => some (.bool false, r)
        | none => none
      else if c = '-' || c.isDigit then parseNum cs
      else none

/-- Parse the elements of a nonempty array body (position just past the
opening bracket and any whitespace), including the closing bracket. -/
def parseElems : Nat → Chars → Option (List Json × Chars)
  | 0, _ => none
  | f + 1, cs =>
    match parseVal f cs with
    | some (v, r1) =>
      match skipWs r1 with
      | ',' :: r2 =>
        match parseElems f (skipWs r2) with
        | some (l, r3) => some (v :: l, r3)
        | none => none
      | ']' :: r2 => some ([v], r2)
      | _ => none
    | none => none

/-- Parse the members of a nonempty object body (position just past the
opening brace and any whitespace), including the closing brace.  Returns
the raw key/value pairs in source order. -/
def parseMembers : Nat → Chars → Option (List (Chars × Json) × Chars)
  | 0, _ => none
  | f + 1, cs =>
    match cs with
    | '"' :: rest =>
      match parseStrBody rest with
      | some (k, r1) =>
        match skipWs r1 with
        | ':' :: r2 =>
          match parseVal f (skipWs r2) with
          | some (v, r3) =>
            match skipWs r3 with
            | ',' :: r4 =>
              match parseMembers f (skipWs r4) with
              | some (m, r5) => some ((k, v) :: m, r5)
              | none => none
            | '}' :: r4 => some ([(k, v)], r4)
            | _ => none
          | none => none
        | _ => none
      | none => none
    | _ => none

end

/-- Models `json.loads` on the modelled fragment: skip leading
whitespace, parse one value, and require that only whitespace follows. -/
def parseJson (cs : Chars) : Option Json :=
  match parseVal (2 * cs.length + 1) (skipWs cs) with
  | some (v, rest) => if skipWs rest = [] then some v else none
  | none => none

example : parseJson ("null".data) = some Json.null := rfl
example : parseJson (" [1, true] ".data) = some (Json.arr [.num false ['1'], .bool true]) := rfl
example : parseJson ("[1, ]".data) = none := rfl
example :
    parseJson ['{', '"', 'a', '"', ':', ' ', '2', '}']
      = some (Json.obj [(['a'], .num false ['2'])]) := rfl
example : parseJson ['{', '"', 'a', '"', ':', '1', ',', '}'] = none := rfl
example : dumpJson (Json.obj [(['a'], .arr [.num false ['1'], .null])])
    = ['{', '"', 'a', '"', ':', ' ', '[', '1', ',', ' ', 'n', 'u', 'l', 'l', ']', '}'] := rfl

/-! ## The regex transforms of `app.py` lines 366-378 -/

/-- The characters matched by the regex class `\s` (ASCII range; the
program only feeds it ASCII model output). -/
def reWsChar (c : Char) : Bool :=
  c = ' ' || c = '\t' || c = '\n' || c = '\r' || c.toNat = 11 || c.toNat = 12

def isAsciiLetter (c : Char) : Bool :=
  (97 ≤ c.toNat && c.toNat ≤ 122) || (65 ≤ c.toNat && c.toNat ≤ 90)

/-- A regex word character (`\w`), for the `\b` boundaries around
`true`, `false`, `null`. -/
def isWordChar (c : Char) : Bool := isAsciiLetter c || c.isDigit || c = '_'

/-- The lookahead class of the first substitution: `["{\[]|[a-zA-Z]`. -/
def lookahead1 (c : Char) : Bool := c = '"' || c = '{' || c = '[' || isAsciiLetter c

/-- A quoted-string token `"[^"]*"` starting at the current position:
returns the token (quotes included) and the rest. -/
def quotedTok : Chars → Option (Chars × Chars)
  | '"' :: rest =>
    let body := rest.takeWhile (fun c => !(c = '"'))
    match rest.drop body.length with
    | '"' :: r2 => some ('"' :: body ++ ['"'], r2)
    | _ => none
  | _ => none

/-- A keyword token with `\b` on both sides (`\btrue\b` etc.): `prev` is
the character just before the current position in the original text. -/
def wordTok (lit : Chars) (prev : Option Char) (cs : Chars) : Option Chars :=
  match prev with
  | some p => if isWordChar p then none else
      match expectLit lit cs with
      | some r =>
        match r with
        | [] => some r
        | c :: _ => if isWordChar c then none else some r
      | none => none
  | none =>
      match expectLit lit cs with
      | some r =>
        match r with
        | [] => some r
        | c :: _ => if isWordChar c then none else some r
      | none => none

/-- Group 1 of `(\d+|\btrue\b|\bfalse\b|\bnull\b|"[^"]*")`: the
alternatives start with pairwise distinct characters, so dispatch on the
head character is exactly the regex alternation. -/
def tryTok1 (prev : Option Char) (cs : Chars) : Option (Chars × Chars) :=
  match cs with
  | [] => none
  | c :: _ =>
    if c.isDigit then
      let ds := cs.takeWhile Char.isDigit
      some (ds, cs.drop ds.length)
    else if c = 't' then (wordTok ['t', 'r', 'u', 'e'] prev cs).map (fun r => (['t', 'r', 'u', 'e'], r))
    else if c = 'f' then (wordTok ['f', 'a', 'l', 's', 'e'] prev cs).map (fun r => (['f', 'a', 'l', 's', 'e'], r))
    else if c = 'n' then (wordTok ['n', 'u', 'l', 'l'] prev cs).map (fun r => (['n', 'u', 'l', 'l'], r))
    else if c = '"' then quotedTok cs
    else none

/-- One match attempt of the first substitution
`(\d+|\btrue\b|\bfalse\b|\bnull\b|"[^"]*")\s+(?=["{\[]|[a-zA-Z])` at the
current position: on success returns the replacement text `\1,`, the last
consumed character of the original text (for the next `\b` test) and the
rest of the input after the match (the lookahead is not consumed). -/
def trySub1At (prev : Option Char) (cs : Chars) : Option (Chars × Char × Chars) :=
  match tryTok1 prev cs with
  | none => none
  | some (g1, afterTok) =>
    let ws := afterTok.takeWhile reWsChar
    if ws.isEmpty then none
    else
      match afterTok.drop ws.length with
      | c :: r2 =>
        if lookahead1 c then some (g1 ++ [','], ws.getLastD ' ', c :: r2) else none
      | [] => none

/-- Left-to-right scan of `re.sub` for the first substitution: try a
match at each position; on a match emit the replacement and continue
after the matched text.  Fuel `length` suffices: every step consumes at
least one character. -/
def sub1Go : Nat → Option Char → Chars → Chars
  | 0, _, cs => cs
  | f + 1, prev, cs =>
    match cs with
    | [] => []
    | c :: rest =>
      match trySub1At prev cs with
      | some (rep, lastC, after) => rep ++ sub1Go f (some lastC) after
      | none => c :: sub1Go f (some c) rest

/-- Models `re.sub(r'(\d+|\btrue\b|\bfalse\b|\bnull\b|"[^"]*")\s+(?=["{\[]|[a-zA-Z])', r'\1,', s)`
(app.py line 376): inter-value comma insertion. -/
def fixInterValueCommas (cs : Chars) : Chars := sub1Go cs.length none cs

/-- Group 1 of `(\}|\]|\d+|"[^"]*")`: again first characters are
pairwise distinct. -/
def tryTok2 : Chars → Option (Chars × Chars)
  | '}' :: r => some (['}'], r)
  | ']' :: r => some ([']'], r)
  | cs@(c :: _) =>
    if c.isDigit then
      let ds := cs.takeWhile Char.isDigit
      some (ds, cs.drop ds.length)
    else if c = '"' then quotedTok cs
    else none
  | [] => none

/-- One match attempt of `(\}|\]|\d+|"[^"]*")\s*\n\s*"` with replacement
`\1,\n"`: after the token, the pattern `\s*\n\s*` followed by `"`
consumes exactly the maximal whitespace run, provided the run contains a
newline and is followed by a quote; the quote is consumed and re-emitted. -/
def trySub2At (cs : Chars) : Option (Chars × Chars) :=
  match tryTok2 cs with
  | none => none
  | some (tok, afterTok) =>
    let ws := afterTok.takeWhile reWsChar
    if ws.contains '\n' then
      match afterTok.drop ws.length with
      | '"' :: r2 => some (tok ++ [',', '\n', '"'], r2)
      | _ => none
    else none

/-- One match attempt of `,(\s*[\]}])` with replacement `\1`: a comma
followed by optional whitespace and a closing bracket; the comma is
dropped. -/
def trySub3At : Chars → Option (Chars × Chars)
  | ',' :: rest =>
    let ws := rest.takeWhile reWsChar
    match rest.drop ws.length with
    | c :: r2 => if c = ']' || c = '}' then some (ws ++ [c], r2) else none
    | [] => none
  | _ => none

/-- Generic `re.sub` scan for patterns without `\b` context. -/
def subGo (tryAt : Chars → Option (Chars × Chars)) : Nat → Chars → Chars
  | 0, cs => cs
  | f + 1, cs =>
    match cs with
    | [] => []
    | c :: rest =>
      match tryAt cs with
      | some (rep, after) => rep ++ subGo tryAt f after
      | none => c :: subGo tryAt f rest

/-- Models `re.sub(r'(\}|\]|\d+|"[^"]*")\s*\n\s*"', r'\1,\n"', s)`
(app.py line 377): line-boundary comma insertion. -/
def fixLineBoundaryCommas (cs : Chars) : Chars := subGo trySub2At cs.length cs

/-- Models `re.sub(r',(\s*[\]}])', r'\1', s)` (app.py line 378):
trailing-comma removal. -/
def removeTrailingCommas (cs : Chars) : Chars := subGo trySub3At cs.length cs

/-- Models `re.search(r'\{.*\}', s, re.DOTALL)` (app.py line 367): with
the greedy `.*`, a match exists exactly when some `{` has a `}` after
it, and the matched text then runs from the first `{` to the last `}`,
inclusive. -/
def isolate (cs : Chars) : Option Chars :=
  let fromBrace := cs.dropWhile (fun c => !(c = '{'))
  let upToLast := (fromBrace.reverse.dropWhile (fun c => !(c = '}'))).reverse
  if upToLast.isEmpty then none else some upToLast

/-- Failure modes of the repair pipeline (app.py lines 360-393):
`noJsonFound` is the "No JSON object found in response" path (isolation
failed, 'Invalid analysis format received'); `unrecoverable` is the
final `json.loads` failure ('Failed to process analysis results'). -/
inductive RepairError where
  | noJsonFound
  | unrecoverable
  deriving DecidableEq

/-- The repaired text the handler returns in the `analysis` field
(app.py lines 360-387): fast path `json.dumps(json.loads(s))`, else
isolation followed by the three substitutions, validated by a final
parse. -/
def repairText (cs : Chars) : Except RepairError Chars :=
  match parseJson cs with
  | some v => .ok (dumpJson v)
  | none =>
    match isolate cs with
    | none => .error .noJsonFound
    | some c =>
      let c3 := removeTrailingCommas (fixLineBoundaryCommas (fixInterValueCommas c))
      match parseJson c3 with
      | some _ => .ok c3
      | none => .error .unrecoverable

/-- The repair pipeline as a value-level contract
`repair(rawText) -> Result<JsonValue, RepairError>`: the parsed value of
the text `repairText` produces. -/
def repair (cs : Chars) : Except RepairError Json :=
  match parseJson cs with
  | some v => .ok v
  | none =>
    match isolate cs with
    | none => .error .noJsonFound
    | some c =>
      let c3 := removeTrailingCommas (fixLineBoundaryCommas (fixInterValueCommas c))
      match parseJson c3 with
      | some v => .ok v
      | none => .error .unrecoverable

example :
    fixInterValueCommas ['{', '"', 'a', '"', ':', ' ', '1', ' ', '"', 'b', '"', ':', ' ', '2', '}']
      = ['{', '"', 'a', '"', ':', ' ', '1', ',', '"', 'b', '"', ':', ' ', '2', '}'] := rfl
example :
    repair ['{', '"', 'a', '"', ':', ' ', '1', ' ', '"', 'b', '"', ':', ' ', '2', '}']
      = .ok (Json.obj [(['a'], .num false ['1']), (['b'], .num false ['2'])]) := rfl
example : repair ("no json here".data) = .error .noJsonFound := rfl

/-! ## Round-trip: the canonical serialization of a well-formed value
parses back to the same value.  This backs the idempotence claims. -/

/-- The characters that may legitimately follow a serialized value
inside a larger serialization (separator, closing bracket, or end). -/
def sepAfter (cs : Chars) : Prop :=
  ∀ c, cs.head? = some c → c = ',' ∨ c = ']' ∨ c = '}'

theorem sepAfter_nil : sepAfter [] := by intro c h; simp at h

theorem skipWs_cons_of_not_ws {c : Char} (h : jsonWsChar c = false) (cs : Chars) :
    skipWs (c :: cs) = c :: cs := by
  simp [skipWs, h]

theorem isDigit_char_facts {d : Char} (h : d.isDigit = true) :
    jsonWsChar d = false ∧ d ≠ '{' ∧ d ≠ '[' ∧ d ≠ '"' ∧ d ≠ 'n' ∧ d ≠ 't' ∧ d ≠ 'f' ∧
      d ≠ '-' ∧ d ≠ ']' ∧ d ≠ '}' ∧ d ≠ ',' ∧ d ≠ ':' := by
  refine ⟨?_, ?_, ?_, ?_, ?_, ?_, ?_, ?_, ?_, ?_, ?_, ?_⟩
  · simp only [jsonWsChar, Bool.or_eq_false_iff, decide_eq_false_iff_not]
    refine ⟨⟨⟨?_, ?_⟩, ?_⟩, ?_⟩ <;> (rintro rfl; exact absurd h (by decide))
  all_goals (rintro rfl; exact absurd h (by decide))

theorem dumpJson_shape (v : Json) (h : wfJson v = true) :
    ∃ c t, dumpJson v = c :: t ∧ jsonWsChar c = false ∧ c ≠ ']' ∧ c ≠ '}' := by
  match v with
  | .null => exact ⟨'n', _, rfl, by decide, by decide, by decide⟩
  | .bool true => exact ⟨'t', _, rfl, by decide, by decide, by decide⟩
  | .bool false => exact ⟨'f', _, rfl, by decide, by decide, by decide⟩
  | .num neg ds =>
    match neg, ds with
    | true, ds => exact ⟨'-', _, rfl, by decide, by decide, by decide⟩
    | false, [] => simp [wfJson] at h
    | false, d :: ds =>
      have hd : d.isDigit = true := by
        simp only [wfJson, List.all_cons, Bool.and_eq_true] at h
        exact h.2.1
      obtain ⟨h1, _, _, _, _, _, _, _, h9, h10, _, _⟩ := isDigit_char_facts hd
      exact ⟨d, ds, by simp [dumpJson], h1, h9, h10⟩
  | .str cs => exact ⟨'"', _, rfl, by decide, by decide, by decide⟩
  | .arr [] => exact ⟨'[', _, rfl, by decide, by decide, by decide⟩
  | .arr (x :: xs) => exact ⟨'[', _, rfl, by decide, by decide, by decide⟩
  | .obj [] => exact ⟨'{', _, rfl, by decide, by decide, by decide⟩
  | .obj ((k, v0) :: m) => exact ⟨'{', _, rfl, by decide, by decide, by decide⟩

theorem dumpJson_length_pos (v : Json) (h : wfJson v = true) :
    1 ≤ (dumpJson v).length := by
  obtain ⟨c, t, he, -⟩ := dumpJson_shape v h
  simp [he]

theorem skipWs_dump_append (v : Json) (h : wfJson v = true) (r : Chars) :
    skipWs (dumpJson v ++ r) = dumpJson v ++ r := by
  obtain ⟨c, t, he, hws, -⟩ := dumpJson_shape v h
  rw [he]
  exact skipWs_cons_of_not_ws hws _

theorem parseStrBody_append (cs : Chars) (h : cs.all okStrChar = true) (rest : Chars) :
    parseStrBody (cs ++ '"' :: rest) = some (cs, rest) := by
  induction cs with
  | nil => simp [parseStrBody]
  | cons c t ih =>
    simp only [List.all_cons, Bool.and_eq_true] at h
    have hc : okStrChar c = true := h.1
    simp only [okStrChar, Bool.and_eq_true, Bool.not_eq_true', decide_eq_false_iff_not,
      decide_eq_false_iff_not] at hc
    simp only [List.cons_append, parseStrBody]
    rw [if_neg hc.1.1, if_neg (by simp [hc.1.2, hc.2])]
    simp only [List.append_eq] at *
    rw [ih h.2]

theorem expectLit_append (lit rest : Chars) : expectLit lit (lit ++ rest) = some rest := by
  induction lit with
  | nil => simp [expectLit]
  | cons c t ih => simp [expectLit, ih]

theorem takeWhile_append_all {p : Char → Bool} (l rest : Chars)
    (hall : ∀ c ∈ l, p c = true) (hrest : ∀ c, rest.head? = some c → p c = false) :
    (l ++ rest).takeWhile p = l := by
  induction l with
  | nil =>
    cases rest with
    | nil => simp
    | cons c t =>
      have := hrest c (by simp)
      simp [List.takeWhile, this]
  | cons c t ih =>
    have hc := hall c (by simp)
    simp only [List.cons_append, List.takeWhile, hc]
    simp only [List.append_eq]
    rw [ih (fun x hx => hall x (by simp [hx]))]

theorem parseNum_append (neg : Bool) (ds : Chars) (h1 : ds.isEmpty = false)
    (h2 : ds.all Char.isDigit = true) (rest : Chars)
    (hrest : ∀ c, rest.head? = some c → c.isDigit = false) :
    parseNum ((if neg then ['-'] else []) ++ ds ++ rest) = some (.num neg ds, rest) := by
  have hall : ∀ c ∈ ds, c.isDigit = true := by
    rw [List.all_eq_true] at h2
    exact fun c hc => h2 c hc
  have htw : (ds ++ rest).takeWhile Char.isDigit = ds :=
    takeWhile_append_all ds rest hall hrest
  have hdrop : (ds ++ rest).drop ds.length = rest := List.drop_left ds rest
  cases neg with
  | true =>
    have hshape : ((if (true : Bool) then ['-'] else []) ++ ds ++ rest : Chars)
        = '-' :: (ds ++ rest) := by simp
    rw [hshape, parseNum]
    simp [htw, hdrop, h1]
  | false =>
    have hshape : ((if (false : Bool) then ['-'] else []) ++ ds ++ rest : Chars)
        = ds ++ rest := by simp
    rw [hshape]
    cases ds with
    | nil => simp at h1
    | cons d dt =>
      have hd : d.isDigit = true := hall d (by simp)
      have h8 : d ≠ '-' := (isDigit_char_facts hd).2.2.2.2.2.2.2.1
      simp only [List.cons_append] at htw hdrop ⊢
      rw [parseNum.eq_def]
      split
      · rename_i t heq
        rw [List.cons_eq_cons] at heq
        exact absurd heq.1 h8
      · simp [htw, hdrop, h1]

theorem dictInsert_of_not_mem (acc : List (Chars × Json)) (k : Chars) (v : Json)
    (h : acc.any (fun kv => kv.1 = k) = false) : dictInsert acc k v = acc ++ [(k, v)] := by
  induction acc with
  | nil => simp [dictInsert]
  | cons kv0 m ih =>
    simp only [List.any_cons, Bool.or_eq_false_iff, decide_eq_false_iff_not] at h
    match kv0 with
    | (k0, v0) =>
      simp only [dictInsert]
      rw [if_neg h.1]
      rw [ih h.2]
      simp

theorem dictFold_of_disjoint : ∀ (m acc : List (Chars × Json)),
    nodupKeysB m = true →
    (∀ kv ∈ m, acc.any (fun kv2 => kv2.1 = kv.1) = false) →
    m.foldl (fun a kv => dictInsert a kv.1 kv.2) acc = acc ++ m := by
  intro m
  induction m with
  | nil => intro acc _ _; simp
  | cons kv0 m ih =>
    intro acc hnd hdis
    simp only [nodupKeysB, Bool.and_eq_true, Bool.not_eq_true', List.any_eq_false] at hnd
    simp only [List.foldl_cons]
    rw [dictInsert_of_not_mem acc kv0.1 kv0.2 (hdis kv0 (by simp))]
    rw [ih (acc ++ [(kv0.1, kv0.2)]) (by
      simp only [nodupKeysB, Bool.and_eq_true, Bool.not_eq_true', List.any_eq_false] at *
      exact hnd.2) ?_]
    · simp
    · intro kv hkv
      simp only [List.any_append, Bool.or_eq_false_iff]
      constructor
      · exact hdis kv (by simp [hkv])
      · simp only [List.any_cons, List.any_nil, Bool.or_false, decide_eq_false_iff_not]
        intro heq
        have h2 := hnd.1 kv hkv
        simp at h2
        exact h2 heq.symm

theorem dictOfPairs_self (m : List (Chars × Json)) (h : nodupKeysB m = true) :
    dictOfPairs m = m := by
  have := dictFold_of_disjoint m [] h (fun kv _ => by simp)
  simpa [dictOfPairs] using this

/-- The serialized elements of a nonempty array, without the brackets. -/
def dumpElemsJoin : List Json → Chars
  | [] => []
  | x :: xs => dumpJson x ++ dumpList xs

/-- The serialized members of a nonempty object, without the braces. -/
def dumpMembersJoin : List (Chars × Json) → Chars
  | [] => []
  | (k, v) :: m => '"' :: k ++ '"' :: ':' :: ' ' :: dumpJson v ++ dumpMembers m

theorem parseVal_dump_null (rest : Chars) (f : Nat) (hf : 1 ≤ f) :
    parseVal f (dumpJson .null ++ rest) = some (.null, rest) := by
  obtain ⟨g, rfl⟩ : ∃ g, f = g + 1 := ⟨f - 1, by omega⟩
  simp [parseVal, dumpJson, nullLit, expectLit]

theorem parseVal_dump_bool (b : Bool) (rest : Chars) (f : Nat) (hf : 1 ≤ f) :
    parseVal f (dumpJson (.bool b) ++ rest) = some (.bool b, rest) := by
  obtain ⟨g, rfl⟩ : ∃ g, f = g + 1 := ⟨f - 1, by omega⟩
  cases b <;> simp [parseVal, dumpJson, trueLit, falseLit, expectLit]

theorem parseVal_dump_num (neg : Bool) (ds : Chars) (h : wfJson (.num neg ds) = true)
    (rest : Chars) (f : Nat) (hf : 1 ≤ f) (hsep : sepAfter rest) :
    parseVal f (dumpJson (.num neg ds) ++ rest) = some (.num neg ds, rest) := by
  obtain ⟨g, rfl⟩ : ∃ g, f = g + 1 := ⟨f - 1, by omega⟩
  simp only [wfJson, Bool.and_eq_true, Bool.not_eq_true'] at h
  have hrest : ∀ c, rest.head? = some c → c.isDigit = false := by
    intro c hc
    rcases hsep c hc with h1 | h1 | h1 <;> (subst h1; decide)
  have hp := parseNum_append neg ds h.1 h.2 rest hrest
  cases neg with
  | true =>
    simp at hp
    simp only [dumpJson]
    simp [parseVal]
    simpa using hp
  | false =>
    simp at hp
    cases ds with
    | nil => exact absurd h.1 (by simp)
    | cons d dt =>
      have hd : d.isDigit = true := by
        have hall := h.2
        rw [List.all_eq_true] at hall
        exact hall d (by simp)
      obtain ⟨hws, hbr1, hbr2, hq, hn, ht, hfc, hmin, _, _, _, _⟩ := isDigit_char_facts hd
      have hshape : dumpJson (.num false (d :: dt)) ++ rest = d :: (dt ++ rest) := by
        simp [dumpJson]
      rw [hshape]
      rw [parseVal.eq_def]
      simp only []
      rw [if_neg hbr1, if_neg hbr2, if_neg hq, if_neg hn, if_neg ht, if_neg hfc]
      rw [if_pos (by simp [hd])]
      simpa using hp

theorem parseVal_dump_str (cs : Chars) (h : wfJson (.str cs) = true)
    (rest : Chars) (f : Nat) (hf : 1 ≤ f) :
    parseVal f (dumpJson (.str cs) ++ rest) = some (.str cs, rest) := by
  obtain ⟨g, rfl⟩ : ∃ g, f = g + 1 := ⟨f - 1, by omega⟩
  simp only [wfJson] at h
  have hps := parseStrBody_append cs h rest
  simp [dumpJson, parseVal, hps]

theorem parseVal_dump_arrNil (rest : Chars) (f : Nat) (hf : 1 ≤ f) :
    parseVal f (dumpJson (.arr []) ++ rest) = some (.arr [], rest) := by
  obtain ⟨g, rfl⟩ : ∃ g, f = g + 1 := ⟨f - 1, by omega⟩
  simp [parseVal, dumpJson, skipWs, jsonWsChar]

theorem parseVal_dump_objNil (rest : Chars) (f : Nat) (hf : 1 ≤ f) :
    parseVal f (dumpJson (.obj []) ++ rest) = some (.obj [], rest) := by
  obtain ⟨g, rfl⟩ : ∃ g, f = g + 1 := ⟨f - 1, by omega⟩
  simp [parseVal, dumpJson, skipWs, jsonWsChar]

theorem parseVal_dump_arrCons (x : Json) (xs : List Json) (hx : wfJson x = true)
    (hElems : ∀ rest2 f2, 2 * (dumpElemsJoin (x :: xs) ++ ']' :: rest2).length + 2 ≤ f2 →
      parseElems f2 (dumpElemsJoin (x :: xs) ++ ']' :: rest2) = some (x :: xs, rest2))
    (rest : Chars) (f : Nat)
    (hf : 2 * (dumpJson (.arr (x :: xs)) ++ rest).length + 1 ≤ f) :
    parseVal f (dumpJson (.arr (x :: xs)) ++ rest) = some (.arr (x :: xs), rest) := by
  obtain ⟨g, rfl⟩ : ∃ g, f = g + 1 := ⟨f - 1, by omega⟩
  have hshape : dumpJson (.arr (x :: xs)) ++ rest
      = '[' :: (dumpElemsJoin (x :: xs) ++ ']' :: rest) := by
    simp [dumpJson, dumpElemsJoin]
  rw [hshape] at hf ⊢
  rw [parseVal.eq_def]
  simp only []
  rw [if_neg (by decide : ¬('[' : Char) = '{')]
  simp only [if_true]
  have hsk : skipWs (dumpElemsJoin (x :: xs) ++ ']' :: rest)
      = dumpElemsJoin (x :: xs) ++ ']' :: rest := by
    have h2 : dumpElemsJoin (x :: xs) ++ ']' :: rest
        = dumpJson x ++ (dumpList xs ++ ']' :: rest) := by simp [dumpElemsJoin]
    rw [h2]
    exact skipWs_dump_append x hx _
  rw [hsk]
  obtain ⟨c, t, hct, hws2, hne1, hne2⟩ := dumpJson_shape x hx
  have hS : dumpElemsJoin (x :: xs) ++ ']' :: rest
      = c :: (t ++ (dumpList xs ++ ']' :: rest)) := by
    simp [dumpElemsJoin, hct]
  have hE := hElems rest g (by
    simp only [List.length_append, List.length_cons] at hf ⊢
    omega)
  rw [hS] at hE ⊢
  split
  · rename_i r2 heq
    rw [List.cons_eq_cons] at heq
    exact absurd heq.1 hne1
  · rw [hE]

theorem parseVal_dump_objCons (k : Chars) (v : Json) (m : List (Chars × Json))
    (hwf : wfJson (.obj ((k, v) :: m)) = true)
    (hMembers : ∀ rest2 f2,
      2 * (dumpMembersJoin ((k, v) :: m) ++ '}' :: rest2).length + 2 ≤ f2 →
      parseMembers f2 (dumpMembersJoin ((k, v) :: m) ++ '}' :: rest2)
        = some ((k, v) :: m, rest2))
    (rest : Chars) (f : Nat)
    (hf : 2 * (dumpJson (.obj ((k, v) :: m)) ++ rest).length + 1 ≤ f) :
    parseVal f (dumpJson (.obj ((k, v) :: m)) ++ rest) = some (.obj ((k, v) :: m), rest) := by
  obtain ⟨g, rfl⟩ : ∃ g, f = g + 1 := ⟨f - 1, by omega⟩
  have hshape : dumpJson (.obj ((k, v) :: m)) ++ rest
      = '{' :: (dumpMembersJoin ((k, v) :: m) ++ '}' :: rest) := by
    simp [dumpJson, dumpMembersJoin]
  rw [hshape] at hf ⊢
  rw [parseVal.eq_def]
  simp only []
  simp only [if_true]
  have hform : dumpMembersJoin ((k, v) :: m) ++ '}' :: rest
      = '"' :: (k ++ '"' :: ':' :: ' ' :: dumpJson v ++ dumpMembers m ++ '}' :: rest) := by
    simp [dumpMembersJoin]
  have hsk : skipWs (dumpMembersJoin ((k, v) :: m) ++ '}' :: rest)
      = dumpMembersJoin ((k, v) :: m) ++ '}' :: rest := by
    rw [hform]
    exact skipWs_cons_of_not_ws (by decide) _
  rw [hsk]
  have hM := hMembers rest g (by
    simp only [List.length_append, List.length_cons] at hf ⊢
    omega)
  rw [hform] at hM ⊢
  split
  · rename_i r2 heq
    rw [List.cons_eq_cons] at heq
    exact absurd heq.1 (by decide)
  · rw [hM]
    have hnd : nodupKeysB ((k, v) :: m) = true := by
      simp only [wfJson, Bool.and_eq_true] at hwf
      exact hwf.1
    simp only [dictOfPairs_self _ hnd]

mutual

/-- Round-trip: the canonical serialization of a well-formed value,
followed by any separator-headed remainder, parses back to exactly that
value with the remainder untouched. -/
theorem parseVal_dump : ∀ (v : Json), wfJson v = true → ∀ (rest : Chars) (f : Nat),
    sepAfter rest → 2 * (dumpJson v ++ rest).length + 1 ≤ f →
    parseVal f (dumpJson v ++ rest) = some (v, rest)
  | .null => fun _ rest f _ hf => parseVal_dump_null rest f (by omega)
  | .bool b => fun _ rest f _ hf => parseVal_dump_bool b rest f (by omega)
  | .num neg ds => fun h rest f hsep hf => parseVal_dump_num neg ds h rest f (by omega) hsep
  | .str cs => fun h rest f _ hf => parseVal_dump_str cs h rest f (by omega)
  | .arr [] => fun _ rest f _ hf => parseVal_dump_arrNil rest f (by omega)
  | .arr (x :: xs) => fun h rest f _ hf =>
      parseVal_dump_arrCons x xs
        (by
          simp only [wfJson, wfList, Bool.and_eq_true] at h
          exact h.1)
        (fun rest2 f2 hb =>
          parseElems_dump (x :: xs) (by simp) (by simpa [wfJson] using h) rest2 f2 hb)
        rest f hf
  | .obj [] => fun _ rest f _ hf => parseVal_dump_objNil rest f (by omega)
  | .obj ((k, v0) :: m) => fun h rest f _ hf =>
      parseVal_dump_objCons k v0 m h
        (fun rest2 f2 hb =>
          parseMembers_dump ((k, v0) :: m) (by simp)
            (by
              simp only [wfJson, Bool.and_eq_true] at h
              exact h.2)
            rest2 f2 hb)
        rest f hf

theorem parseElems_dump : ∀ (l : List Json), l ≠ [] → wfList l = true →
    ∀ (rest : Chars) (f : Nat),
    2 * (dumpElemsJoin l ++ ']' :: rest).length + 2 ≤ f →
    parseElems f (dumpElemsJoin l ++ ']' :: rest) = some (l, rest)
  | [] => fun hne => absurd rfl hne
  | x :: xs => fun _ hwf rest f hf => by
    obtain ⟨hx, hxs⟩ : wfJson x = true ∧ wfList xs = true := by
      simpa [wfList, Bool.and_eq_true] using hwf
    obtain ⟨g, rfl⟩ : ∃ g, f = g + 1 := ⟨f - 1, by omega⟩
    have hshape : dumpElemsJoin (x :: xs) ++ ']' :: rest
        = dumpJson x ++ (dumpList xs ++ ']' :: rest) := by simp [dumpElemsJoin]
    rw [hshape] at hf ⊢
    rw [parseElems.eq_def]
    simp only []
    have hsep2 : sepAfter (dumpList xs ++ ']' :: rest) := by
      cases xs with
      | nil => intro c hc; simp [dumpList] at hc; exact Or.inr (Or.inl hc.symm)
      | cons y ys => intro c hc; simp [dumpList] at hc; exact Or.inl hc.symm
    have hv := parseVal_dump x hx (dumpList xs ++ ']' :: rest) g hsep2 (by
      simp only [List.length_append, List.length_cons] at hf ⊢
      omega)
    rw [hv]
    cases xs with
    | nil =>
      simp [dumpList, skipWs, jsonWsChar]
    | cons y ys =>
      obtain ⟨hy, hys⟩ : wfJson y = true ∧ wfList ys = true := by
        simpa [wfList, Bool.and_eq_true] using hxs
      have hform : dumpList (y :: ys) ++ ']' :: rest
          = ',' :: ' ' :: (dumpJson y ++ (dumpList ys ++ ']' :: rest)) := by
        simp [dumpList]
      rw [hform]
      have hsk2 := skipWs_dump_append y hy (dumpList ys ++ ']' :: rest)
      have hrec := parseElems_dump (y :: ys) (by simp) hxs rest g (by
        have hpos := dumpJson_length_pos x hx
        simp only [dumpElemsJoin, dumpList, List.length_append, List.length_cons] at hf ⊢
        omega)
      have hrecForm : parseElems g (dumpJson y ++ (dumpList ys ++ ']' :: rest))
          = some (y :: ys, rest) := by
        have h2 : dumpElemsJoin (y :: ys) ++ ']' :: rest
            = dumpJson y ++ (dumpList ys ++ ']' :: rest) := by simp [dumpElemsJoin]
        rw [h2] at hrec
        exact hrec
      simp [skipWs, jsonWsChar, hsk2, hrecForm]

theorem parseMembers_dump : ∀ (ms : List (Chars × Json)), ms ≠ [] → wfMembers ms = true →
    ∀ (rest : Chars) (f : Nat),
    2 * (dumpMembersJoin ms ++ '}' :: rest).length + 2 ≤ f →
    parseMembers f (dumpMembersJoin ms ++ '}' :: rest) = some (ms, rest)
  | [] => fun hne => absurd rfl hne
  | (k, v) :: m => fun _ hwf rest f hf => by
    obtain ⟨hk, hv, hm⟩ : k.all okStrChar = true ∧ wfJson v = true ∧ wfMembers m = true := by
      simpa [wfMembers, Bool.and_eq_true, and_assoc] using hwf
    obtain ⟨g, rfl⟩ : ∃ g, f = g + 1 := ⟨f - 1, by omega⟩
    have hshape : dumpMembersJoin ((k, v) :: m) ++ '}' :: rest
        = '"' :: (k ++ '"' :: (':' :: ' ' :: (dumpJson v ++ (dumpMembers m ++ '}' :: rest)))) := by
      simp [dumpMembersJoin]
    rw [hshape] at hf ⊢
    rw [parseMembers.eq_def]
    simp only []
    have hps := parseStrBody_append k hk
      (':' :: ' ' :: (dumpJson v ++ (dumpMembers m ++ '}' :: rest)))
    have hskv := skipWs_dump_append v hv (dumpMembers m ++ '}' :: rest)
    have hsep3 : sepAfter (dumpMembers m ++ '}' :: rest) := by
      cases m with
      | nil => intro c hc; simp [dumpMembers] at hc; exact Or.inr (Or.inr hc.symm)
      | cons kv2 m2 =>
        obtain ⟨k2, v2⟩ := kv2
        intro c hc; simp [dumpMembers] at hc; exact Or.inl hc.symm
    have hval := parseVal_dump v hv (dumpMembers m ++ '}' :: rest) g hsep3 (by
      simp only [List.length_append, List.length_cons] at hf ⊢
      omega)
    cases m with
    | nil =>
      simp only [dumpMembers, List.nil_append] at hps hskv hval
      simp [hps, hskv, hval, dumpMembers, skipWs, jsonWsChar]
    | cons kv2 m2 =>
      obtain ⟨k2, v2⟩ := kv2
      have hform2 : dumpMembers ((k2, v2) :: m2) ++ '}' :: rest
          = ',' :: ' ' :: (dumpMembersJoin ((k2, v2) :: m2) ++ '}' :: rest) := by
        simp [dumpMembers, dumpMembersJoin]
      have hsk3 : skipWs (dumpMembersJoin ((k2, v2) :: m2) ++ '}' :: rest)
          = dumpMembersJoin ((k2, v2) :: m2) ++ '}' :: rest := by
        have hf2 : dumpMembersJoin ((k2, v2) :: m2) ++ '}' :: rest
            = '"' :: (k2 ++ '"' :: (':' :: ' ' ::
                (dumpJson v2 ++ (dumpMembers m2 ++ '}' :: rest)))) := by
          simp [dumpMembersJoin]
        rw [hf2]
        exact skipWs_cons_of_not_ws (by decide) _
      have hrec := parseMembers_dump ((k2, v2) :: m2) (by simp) hm rest g (by
        have hpos := dumpJson_length_pos v hv
        simp only [dumpMembersJoin, dumpMembers, List.length_append, List.length_cons] at hf ⊢
        omega)
      have hrec2 : parseMembers g
          ('"' :: (k2 ++ '"' :: ':' :: ' ' :: (dumpJson v2 ++ (dumpMembers m2 ++ '}' :: rest))))
          = some ((k2, v2) :: m2, rest) := by
        have he : dumpMembersJoin ((k2, v2) :: m2) ++ '}' :: rest
            = '"' :: (k2 ++ '"' :: ':' :: ' ' ::
                (dumpJson v2 ++ (dumpMembers m2 ++ '}' :: rest))) := by
          simp [dumpMembersJoin]
        rw [he] at hrec
        exact hrec
      rw [hform2] at hps hskv hval ⊢
      simp [hps, hskv, hval, hsk3, hrec, hrec2, skipWs, jsonWsChar]

end

/-- Top-level round-trip: `json.loads(json.dumps(v))` recovers `v` for
every well-formed value. -/
theorem parseJson_dump (v : Json) (h : wfJson v = true) :
    parseJson (dumpJson v) = some v := by
  have h2 := parseVal_dump v h [] (2 * (dumpJson v).length + 1) sepAfter_nil
    (by simp)
  rw [List.append_nil] at h2
  have hsk : skipWs (dumpJson v) = dumpJson v := by
    have h3 := skipWs_dump_append v h []
    rwa [List.append_nil] at h3
  unfold parseJson
  rw [hsk, h2]
  simp [skipWs]

theorem parseStrBody_ok : ∀ (cs b r : Chars),
    parseStrBody cs = some (b, r) → b.all okStrChar = true := by
  intro cs
  induction cs with
  | nil => intro b r h; simp [parseStrBody] at h
  | cons c t ih =>
    intro b r h
    rw [parseStrBody] at h
    split at h
    · rename_i hq
      simp only [Option.some.injEq, Prod.mk.injEq] at h
      rw [← h.1]
      simp
    · split at h
      · exact absurd h (by simp)
      · rename_i hq hbad
        cases hp : parseStrBody t with
        | none => rw [hp] at h; simp at h
        | some pr =>
          obtain ⟨b2, r2⟩ := pr
          rw [hp] at h
          simp only [Option.some.injEq, Prod.mk.injEq] at h
          rw [← h.1]
          have hb2 := ih b2 r2 hp
          simp only [Bool.or_eq_true, not_or] at hbad
          simp only [List.all_cons, Bool.and_eq_true]
          refine ⟨?_, hb2⟩
          simp only [okStrChar, Bool.and_eq_true, Bool.not_eq_true', decide_eq_false_iff_not]
          push_neg at hbad
          exact ⟨⟨hq, by simpa using hbad.1⟩, by simpa using hbad.2⟩

theorem parseNum_wf : ∀ (cs : Chars) (v : Json) (r : Chars),
    parseNum cs = some (v, r) → wfJson v = true := by
  intro cs v r h
  rw [parseNum.eq_def] at h
  split at h
  · rename_i t
    split at h
    · exact absurd h (by simp)
    · rename_i hne
      simp only [Option.some.injEq, Prod.mk.injEq] at h
      rw [← h.1]
      simp only [wfJson, Bool.and_eq_true, Bool.not_eq_true']
      refine ⟨by simpa using hne, ?_⟩
      rw [List.all_eq_true]
      exact fun c hc => List.mem_takeWhile_imp hc
  · rename_i t hne2
    split at h
    · exact absurd h (by simp)
    · rename_i hne
      simp only [Option.some.injEq, Prod.mk.injEq] at h
      rw [← h.1]
      simp only [wfJson, Bool.and_eq_true, Bool.not_eq_true']
      refine ⟨by simpa using hne, ?_⟩
      rw [List.all_eq_true]
      exact fun c hc => List.mem_takeWhile_imp hc

theorem mem_dictInsert : ∀ (m : List (Chars × Json)) (k : Chars) (v : Json) kv,
    kv ∈ dictInsert m k v → kv ∈ m ∨ kv = (k, v) := by
  intro m k v
  induction m with
  | nil => intro kv h; right; simpa [dictInsert] using h
  | cons kv0 m ih =>
    obtain ⟨k0, v0⟩ := kv0
    intro kv h
    rw [dictInsert] at h
    split at h
    · rename_i heq
      rcases List.mem_cons.mp h with h1 | h1
      · right; rw [h1, heq]
      · left; exact List.mem_cons_of_mem _ h1
    · rcases List.mem_cons.mp h with h1 | h1
      · left; rw [h1]; exact List.mem_cons_self _ _
      · rcases ih kv h1 with h2 | h2
        · left; exact List.mem_cons_of_mem _ h2
        · right; exact h2

theorem dictInsert_nodup : ∀ (m : List (Chars × Json)) (k : Chars) (v : Json),
    nodupKeysB m = true → nodupKeysB (dictInsert m k v) = true := by
  intro m k v
  induction m with
  | nil => intro h; simp [dictInsert, nodupKeysB]
  | cons kv0 m ih =>
    obtain ⟨k0, v0⟩ := kv0
    intro h
    rw [nodupKeysB, Bool.and_eq_true] at h
    obtain ⟨h1, h2⟩ := h
    rw [dictInsert]
    split
    · rw [nodupKeysB, Bool.and_eq_true]
      exact ⟨h1, h2⟩
    · rename_i hne
      rw [nodupKeysB, Bool.and_eq_true]
      refine ⟨?_, ih h2⟩
      rw [Bool.not_eq_true', List.any_eq_false]
      intro kv hkv
      rcases mem_dictInsert m k v kv hkv with h3 | h3
      · rw [Bool.not_eq_true', List.any_eq_false] at h1
        exact h1 kv h3
      · rw [h3]
        simp only [decide_eq_true_eq]
        exact fun heq => hne (Eq.symm heq)

theorem dictFold_nodup : ∀ (p acc : List (Chars × Json)), nodupKeysB acc = true →
    nodupKeysB (p.foldl (fun a kv => dictInsert a kv.1 kv.2) acc) = true := by
  intro p
  induction p with
  | nil => intro acc h; simpa using h
  | cons kv p ih =>
    intro acc h
    simp only [List.foldl_cons]
    exact ih _ (dictInsert_nodup acc kv.1 kv.2 h)

theorem dictOfPairs_nodup (p : List (Chars × Json)) : nodupKeysB (dictOfPairs p) = true :=
  dictFold_nodup p [] (by simp [nodupKeysB])

theorem dictFold_mem : ∀ (p acc : List (Chars × Json)) kv,
    kv ∈ p.foldl (fun a x => dictInsert a x.1 x.2) acc → kv ∈ acc ∨ kv ∈ p := by
  intro p
  induction p with
  | nil => intro acc kv h; left; simpa using h
  | cons x p ih =>
    intro acc kv h
    simp only [List.foldl_cons] at h
    rcases ih _ kv h with h1 | h1
    · rcases mem_dictInsert acc x.1 x.2 kv h1 with h2 | h2
      · left; exact h2
      · right; rw [h2]; left
    · right; exact List.mem_cons_of_mem _ h1

theorem dictOfPairs_wfMembers (p : List (Chars × Json)) (h : wfMembers p = true) :
    wfMembers (dictOfPairs p) = true := by
  rw [wfMembers_iff]
  intro kv hkv
  simp only [dictOfPairs] at hkv
  rcases dictFold_mem p [] kv hkv with h1 | h1
  · simp at h1
  · exact (wfMembers_iff p).mp h kv h1

/-- Every value the parser produces is well-formed. -/
theorem parse_wf_all : ∀ f : Nat,
    (∀ cs v r, parseVal f cs = some (v, r) → wfJson v = true) ∧
    (∀ cs l r, parseElems f cs = some (l, r) → wfList l = true) ∧
    (∀ cs ms r, parseMembers f cs = some (ms, r) → wfMembers ms = true) := by
  intro f
  induction f with
  | zero =>
    refine ⟨?_, ?_, ?_⟩ <;> intro cs a r h <;>
      simp [parseVal, parseElems, parseMembers] at h
  | succ g ih =>
    obtain ⟨ihV, ihE, ihM⟩ := ih
    refine ⟨?_, ?_, ?_⟩
    · intro cs v r h
      rw [parseVal.eq_def] at h
      simp only [] at h
      split at h
      · simp at h
      · rename_i c rest
        by_cases h1 : c = '{'
        · rw [if_pos h1] at h
          split at h
          · simp only [Option.some.injEq, Prod.mk.injEq] at h
            rw [← h.1]
            simp [wfJson, nodupKeysB, wfMembers]
          · split at h
            · rename_i m2 r2 heq
              simp only [Option.some.injEq, Prod.mk.injEq] at h
              rw [← h.1]
              simp only [wfJson, Bool.and_eq_true]
              exact ⟨dictOfPairs_nodup m2, dictOfPairs_wfMembers m2 (ihM _ _ _ heq)⟩
            · simp at h
        · rw [if_neg h1] at h
          by_cases h2 : c = '['
          · rw [if_pos h2] at h
            split at h
            · simp only [Option.some.injEq, Prod.mk.injEq] at h
              rw [← h.1]
              simp [wfJson, wfList]
            · split at h
              · rename_i l2 r2 heq
                simp only [Option.some.injEq, Prod.mk.injEq] at h
                rw [← h.1]
                simp only [wfJson]
                exact ihE _ _ _ heq
              · simp at h
          · rw [if_neg h2] at h
            by_cases h3 : c = '"'
            · rw [if_pos h3] at h
              split at h
              · rename_i b2 r2 heq
                simp only [Option.some.injEq, Prod.mk.injEq] at h
                rw [← h.1]
                simp only [wfJson]
                exact parseStrBody_ok _ _ _ heq
              · simp at h
            · rw [if_neg h3] at h
              by_cases h4 : c = 'n'
              · rw [if_pos h4] at h
                split at h
                · simp only [Option.some.injEq, Prod.mk.injEq] at h
                  rw [← h.1]
                  simp [wfJson]
                · simp at h
              · rw [if_neg h4] at h
                by_cases h5 : c = 't'
                · rw [if_pos h5] at h
                  split at h
                  · simp only [Option.some.injEq, Prod.mk.injEq] at h
                    rw [← h.1]
                    simp [wfJson]
                  · simp at h
                · rw [if_neg h5] at h
                  by_cases h6 : c = 'f'
                  · rw [if_pos h6] at h
                    split at h
                    · simp only [Option.some.injEq, Prod.mk.injEq] at h
                      rw [← h.1]
                      simp [wfJson]
                    · simp at h
                  · rw [if_neg h6] at h
                    by_cases h7 : (decide (c = '-') || c.isDigit) = true
                    · rw [if_pos h7] at h
                      exact parseNum_wf _ _ _ h
                    · rw [if_neg h7] at h
                      simp at h
    · intro cs l r h
      rw [parseElems] at h
      split at h
      · rename_i v1 r1 heq1
        split at h
        · split at h
          · rename_i l2 r3 heq2
            simp only [Option.some.injEq, Prod.mk.injEq] at h
            rw [← h.1]
            simp only [wfList, Bool.and_eq_true]
            exact ⟨ihV _ _ _ heq1, ihE _ _ _ heq2⟩
          · exact absurd h (by simp)
        · simp only [Option.some.injEq, Prod.mk.injEq] at h
          rw [← h.1]
          simp [wfList, ihV _ _ _ heq1]
        · exact absurd h (by simp)
      · exact absurd h (by simp)
    · intro cs ms r h
      rw [parseMembers.eq_def] at h
      simp only [] at h
      split at h
      · split at h
        · rename_i k1 r1 heq1
          split at h
          · split at h
            · rename_i v1 r3 heq2
              split at h
              · split at h
                · rename_i m2 r5 heq3
                  simp only [Option.some.injEq, Prod.mk.injEq] at h
                  rw [← h.1]
                  simp only [wfMembers, Bool.and_eq_true]
                  exact ⟨⟨parseStrBody_ok _ _ _ heq1, ihV _ _ _ heq2⟩, ihM _ _ _ heq3⟩
                · exact absurd h (by simp)
              · simp only [Option.some.injEq, Prod.mk.injEq] at h
                rw [← h.1]
                simp [wfMembers, parseStrBody_ok _ _ _ heq1, ihV _ _ _ heq2]
              · exact absurd h (by simp)
            · exact absurd h (by simp)
          · exact absurd h (by simp)
        · exact absurd h (by simp)
      · exact absurd h (by simp)

/-- Every value `json.loads` produces is well-formed. -/
theorem parseJson_wf (cs : Chars) (v : Json) (h : parseJson cs = some v) :
    wfJson v = true := by
  unfold parseJson at h
  split at h
  · rename_i v2 rest heq
    split at h
    · simp only [Option.some.injEq] at h
      rw [← h]
      exact (parse_wf_all _).1 _ _ _ heq
    · exact absurd h (by simp)
  · exact absurd h (by simp)

/-- Fast path of the repair pipeline: on valid JSON the parsed value is
returned as-is, re-serialized canonically, with no textual transform. -/
theorem repair_fast (cs : Chars) (v : Json) (h : parseJson cs = some v) :
    repair cs = .ok v ∧ repairText cs = .ok (dumpJson v) := by
  unfold repair repairText
  rw [h]
  exact ⟨rfl, rfl⟩

/-- Core idempotence: whenever the pipeline succeeds, its output text is
valid JSON for the same value, and re-repairing (the output text or its
canonical serialization) succeeds with a structurally equal value. -/
theorem repair_idem_core (s t : Chars) (r : Json)
    (ht : repairText s = .ok t) (hr : repair s = .ok r) :
    parseJson t = some r ∧ repair t = .ok r ∧
      repairText t = .ok (dumpJson r) ∧ repair (dumpJson r) = .ok r := by
  unfold repairText at ht
  unfold repair at hr
  cases hp : parseJson s with
  | some v =>
    rw [hp] at ht hr
    simp only [Except.ok.injEq] at ht hr
    have hwf := parseJson_wf s v hp
    have hpd := parseJson_dump v hwf
    subst ht
    subst hr
    refine ⟨hpd, ?_, ?_, ?_⟩
    · unfold repair
      rw [hpd]
    · unfold repairText
      rw [hpd]
    · unfold repair
      rw [hpd]
  | none =>
    rw [hp] at ht hr
    cases hi : isolate s with
    | none =>
      rw [hi] at ht
      exact absurd ht (by simp)
    | some c =>
      rw [hi] at ht hr
      simp only [] at ht hr
      cases hc : parseJson (removeTrailingCommas (fixLineBoundaryCommas (fixInterValueCommas c))) with
      | none =>
        rw [hc] at ht
        exact absurd ht (by simp)
      | some w =>
        rw [hc] at ht hr
        simp only [Except.ok.injEq] at ht hr
        have hwf := parseJson_wf _ w hc
        have hpd := parseJson_dump w hwf
        subst ht
        subst hr
        refine ⟨hc, ?_, ?_, ?_⟩
        · unfold repair
          rw [hc]
        · unfold repairText
          rw [hc]
        · unfold repair
          rw [hpd]

theorem dropWhile_append_of_all {p : Char → Bool} (l r : Chars)
    (h : ∀ c ∈ l, p c = true) : (l ++ r).dropWhile p = r.dropWhile p := by
  induction l with
  | nil => simp
  | cons c t ih =>
    simp only [List.cons_append]
    rw [List.dropWhile_cons_of_pos (h c (by simp))]
    exact ih (fun x hx => h x (by simp [hx]))

theorem dropWhile_head_false {p : Char → Bool} : ∀ (l : Chars) (c : Char) (t : Chars),
    l.dropWhile p = c :: t → p c = false := by
  intro l
  induction l with
  | nil => intro c t h; simp at h
  | cons a l ih =>
    intro c t h
    by_cases hp : p a = true
    · rw [List.dropWhile_cons_of_pos hp] at h
      exact ih c t h
    · rw [List.dropWhile_cons_of_neg hp] at h
      rw [List.cons_eq_cons] at h
      rw [← h.1]
      exact Bool.eq_false_iff.mpr hp

/-- If the greedy search `\{.*\}` matches, the text decomposes around an
opening and a closing brace. -/
theorem isolate_some_decomp (cs out : Chars) (h : isolate cs = some out) :
    ∃ pre mid post, cs = pre ++ '{' :: mid ++ '}' :: post := by
  unfold isolate at h
  simp only [] at h
  split at h
  · exact absurd h (by simp)
  · rename_i hne
    have hD : (cs.dropWhile (fun c => !(c = '{'))).reverse.dropWhile (fun c => !(c = '}')) ≠ [] := by
      intro hD0
      rw [hD0] at hne
      simp at hne
    obtain ⟨c0, d1, hD1⟩ : ∃ c0 d1,
        (cs.dropWhile (fun c => !(c = '{'))).reverse.dropWhile (fun c => !(c = '}')) = c0 :: d1 := by
      cases hE : (cs.dropWhile (fun c => !(c = '{'))).reverse.dropWhile (fun c => !(c = '}')) with
      | nil => exact absurd hE hD
      | cons a b => exact ⟨a, b, rfl⟩
    have hc0 : c0 = '}' := by simpa using dropWhile_head_false _ _ _ hD1
    subst hc0
    have hFBne : cs.dropWhile (fun c => !(c = '{')) ≠ [] := by
      intro hFB0
      rw [hFB0] at hD1
      simp at hD1
    obtain ⟨e0, f1, hFB1⟩ : ∃ e0 f1, cs.dropWhile (fun c => !(c = '{')) = e0 :: f1 := by
      cases hE : cs.dropWhile (fun c => !(c = '{')) with
      | nil => exact absurd hE hFBne
      | cons a b => exact ⟨a, b, rfl⟩
    have he0 : e0 = '{' := by simpa using dropWhile_head_false _ _ _ hFB1
    subst he0
    obtain ⟨PRE, hsplit1⟩ : ∃ p, cs = p ++ cs.dropWhile (fun c => !(c = '{')) :=
      ⟨cs.takeWhile (fun c => !(c = '{')),
        (List.takeWhile_append_dropWhile (fun c => !(c = '{')) cs).symm⟩
    obtain ⟨TW2, hsplit2⟩ : ∃ tw,
        (cs.dropWhile (fun c => !(c = '{'))).reverse = tw ++ '}' :: d1 := by
      refine ⟨(cs.dropWhile (fun c => !(c = '{'))).reverse.takeWhile (fun c => !(c = '}')), ?_⟩
      conv =>
        lhs
        rw [← List.takeWhile_append_dropWhile (fun c => !(c = '}'))
          ((cs.dropWhile (fun c => !(c = '{'))).reverse)]
      rw [hD1]
    have hFB2 : cs.dropWhile (fun c => !(c = '{')) = d1.reverse ++ '}' :: TW2.reverse := by
      have h2 := congrArg List.reverse hsplit2
      rw [List.reverse_reverse] at h2
      rw [h2]
      simp
    rw [hFB1] at hFB2
    cases hdr : d1.reverse with
    | nil =>
      rw [hdr] at hFB2
      simp only [List.nil_append, List.cons_eq_cons] at hFB2
      exact absurd hFB2.1 (by decide)
    | cons g0 g1 =>
      rw [hdr] at hFB2
      simp only [List.cons_append, List.cons_eq_cons] at hFB2
      obtain ⟨hg0, hg1⟩ := hFB2
      refine ⟨PRE, g1, TW2.reverse, ?_⟩
      rw [hsplit1, hFB1, hg1]
      simp

theorem isolate_of_decomp (pre mid post : Chars)
    (hpre : '{' ∉ pre) (hpost : '}' ∉ post) :
    isolate (pre ++ '{' :: mid ++ '}' :: post) = some ('{' :: mid ++ ['}']) := by
  unfold isolate
  simp only []
  have h1 : (pre ++ '{' :: mid ++ '}' :: post).dropWhile (fun c => !(c = '{'))
      = '{' :: (mid ++ '}' :: post) := by
    rw [show pre ++ '{' :: mid ++ '}' :: post = pre ++ ('{' :: (mid ++ '}' :: post)) by simp]
    rw [dropWhile_append_of_all pre _ (fun c hc => by
      simp only [Bool.not_eq_true', decide_eq_false_iff_not]
      exact fun heq => hpre (heq ▸ hc))]
    rw [List.dropWhile_cons_of_neg (by simp)]
  rw [h1]
  have h2 : ('{' :: (mid ++ '}' :: post)).reverse
      = post.reverse ++ ('}' :: (mid.reverse ++ ['{'])) := by
    simp
  rw [h2]
  have h3 : (post.reverse ++ ('}' :: (mid.reverse ++ ['{']))).dropWhile (fun c => !(c = '}'))
      = '}' :: (mid.reverse ++ ['{']) := by
    rw [dropWhile_append_of_all post.reverse _ (fun c hc => by
      simp only [Bool.not_eq_true', decide_eq_false_iff_not]
      rw [List.mem_reverse] at hc
      exact fun heq => hpost (heq ▸ hc))]
    rw [List.dropWhile_cons_of_neg (by simp)]
  rw [h3]
  simp

theorem repair_noJsonFound (cs : Chars) (hp : parseJson cs = none) (hi : isolate cs = none) :
    repair cs = .error .noJsonFound := by
  unfold repair
  rw [hp, hi]

/-! ## Embedding of `template_builder.py` -/

/-- Exceptions raised by `validate_template`: `ValueError` with its
message, or `TypeError` (from a membership test or subscript on an
unsuitable type; the Python message text of `TypeError` is not
modelled). -/
inductive PyErr where
  | valueError (msg : Chars)
  | typeError
  deriving DecidableEq

def startsWithSeg : Chars → Chars → Bool
  | [], _ => true
  | _ :: _, [] => false
  | a :: as2, b :: bs => a = b && startsWithSeg as2 bs

/-- Contiguous-substring test, as Python `in` on strings. -/
def substringOf (needle hay : Chars) : Bool :=
  match hay with
  | [] => needle.isEmpty
  | _ :: t => startsWithSeg needle hay || substringOf needle t

/-- Python `needle in v` for the value shapes `json.loads` can produce:
dict → key membership; str → substring; list → element equality;
numbers, booleans and `None` raise `TypeError`. -/
def pyContains (needle : Chars) (v : Json) : Except Unit Bool :=
  match v with
  | .obj m => .ok (m.any (fun kv => kv.1 = needle))
  | .str cs => .ok (substringOf needle cs)
  | .arr l => .ok (l.any (fun x => match x with | .str s => s = needle | _ => false))
  | _ => .error ()

/-- Python `v[key]` with a string key: dict lookup (`KeyError` for a
missing key is also folded into the error case; it is unreachable after
a successful membership check), `TypeError` on every other type. -/
def pyGetItem (v : Json) (key : Chars) : Except Unit Json :=
  match v with
  | .obj m =>
    match m.find? (fun kv => kv.1 = key) with
    | some kv => .ok kv.2
    | none => .error ()
  | _ => .error ()

def sqc : Char := '\''

def missingFieldMsg (f : Chars) : Chars := ("Missing required field: ".data) ++ f

def vizMissingMsg (name what : Chars) : Chars :=
  ("Visualization ".data) ++ name ++ (" missing ".data) ++ [sqc] ++ what ++ [sqc]

def vizNotDictMsg : Chars := ("Visualization must be a dictionary".data)

/-- The per-entry loop of `validate_template` (template_builder.py lines
74-78): every visualization entry must contain `'type'` and `'fields'`
under Python membership. -/
def validateEntries : List (Chars × Json) → Except PyErr Unit
  | [] => .ok ()
  | (name, cfg) :: rest =>
    match pyContains ("type".data) cfg with
    | .error _ => .error .typeError
    | .ok false => .error (.valueError (vizMissingMsg name ("type".data)))
    | .ok true =>
      match pyContains ("fields".data) cfg with
      | .error _ => .error .typeError
      | .ok false => .error (.valueError (vizMissingMsg name ("fields".data)))
      | .ok true => validateEntries rest

/-- Models `validate_template` (template_builder.py lines 63-80): the
four required top-level fields in order, then the
`isinstance(template['visualization'], dict)` check, then the per-entry
loop. -/
def validate_template (t : Json) : Except PyErr Unit :=
  match pyContains ("name".data) t with
  | .error _ => .error .typeError
  | .ok false => .error (.valueError (missingFieldMsg ("name".data)))
  | .ok true =>
    match pyContains ("description".data) t with
    | .error _ => .error .typeError
    | .ok false => .error (.valueError (missingFieldMsg ("description".data)))
    | .ok true =>
      match pyContains ("prompt_template".data) t with
      | .error _ => .error .typeError
      | .ok false => .error (.valueError (missingFieldMsg ("prompt_template".data)))
      | .ok true =>
        match pyContains ("visualization".data) t with
        | .error _ => .error .typeError
        | .ok false => .error (.valueError (missingFieldMsg ("visualization".data)))
        | .ok true =>
          match pyGetItem t ("visualization".data) with
          | .error _ => .error .typeError
          | .ok viz =>
            match viz with
            | .obj m => validateEntries m
            | _ => .error (.valueError vizNotDictMsg)

/-- Result dictionary of `create_custom_template`. -/
inductive CreateTemplateResult where
  | success (template_id : Chars) (template : Json) (path : Chars)
  | failure (error : Chars)
  deriving DecidableEq

def pyErrStr : PyErr → Chars
  | .valueError msg => msg
  | .typeError => "TypeError".data

/-- `template['name'].lower().replace(' ', '_')` (template_builder.py
line 102). -/
def templateIdOf (name : Chars) : Chars :=
  (name.map Char.toLower).map (fun c => if c = ' ' then '_' else c)

/-- The path `save_template` writes to (template_builder.py line 84). -/
def templatePathOf (id : Chars) : Chars :=
  ("config/templates/".data) ++ id ++ (".json".data)

/-- Models `create_custom_template` (template_builder.py lines 92-118)
from the point where the LLM reply has been parsed into a template value
(`generate_template`'s LLM call and `json.loads` are upstream; a parse
failure there is caught by the same handler and likewise saves nothing).
Returns the result dictionary together with the list of files written by
`save_template`; a validation exception is caught before any write, so
the file list is empty on failure (atomicity).  A non-string `name`
value on the success path raises `AttributeError` at `.lower()`, also
caught. -/
def create_custom_template (template : Json) : CreateTemplateResult × List (Chars × Json) :=
  match validate_template template with
  | .error e => (.failure (pyErrStr e), [])
  | .ok _ =>
    match pyGetItem template ("name".data) with
    | .ok (.str n) =>
      (.success (templateIdOf n) template (templatePathOf (templateIdOf n)),
        [(templatePathOf (templateIdOf n), template)])
    | _ => (.failure ("AttributeError".data), [])

/-! ## Embedding of the `app.py` request handlers -/

structure HttpResponse where
  body : Json
  status : Nat
  deriving DecidableEq

/-- Flask `jsonify(x)` used as a bare view return: JSON body, HTTP 200. -/
def jsonify1 (v : Json) : HttpResponse := ⟨v, 200⟩

/-- Flask `jsonify(a, b)`: with two positional arguments Flask
serializes them as a two-element JSON array, and the response status is
still the default 200. -/
def jsonify2 (a b : Json) : HttpResponse := ⟨.arr [a, b], 200⟩

def errorBody (msg : Chars) : Json := .obj [("error".data, .str msg)]

/-- The extension part of `os.path.splitext` (posixpath semantics): the
suffix from the last dot of the basename, provided some earlier
character of the basename is not itself a dot. -/
def splitextExt (p : Chars) : Chars :=
  let baseRev := p.reverse.takeWhile (fun c => !(c = '/'))
  let afterDotRev := baseRev.takeWhile (fun c => !(c = '.'))
  if afterDotRev.length = baseRev.length then []
  else
    let beforeDot := (baseRev.drop (afterDotRev.length + 1)).reverse
    if beforeDot.all (fun c => c = '.') then []
    else '.' :: afterDotRev.reverse

/-- The keys of `DOCUMENT_HANDLERS` (app.py lines 114-119), in insertion
order. -/
def document_handler_exts : List Chars :=
  [".pdf".data, ".txt".data, ".csv".data, ".docx".data]

/-- `os.path.splitext(file.filename)[1].lower()` (app.py line 318). -/
def fileExtOf (filename : Chars) : Chars := (splitextExt filename).map Char.toLower

def unsupportedTypeMsg : Chars :=
  ("Unsupported file type. Supported types: .pdf, .txt, .csv, .docx".data)

/-- Models the file-type check of `analyze_document` (app.py lines
317-321).  On an unsupported extension the code runs
`return jsonify({'error': ...}, 400)`: the `400` is an argument of
`jsonify` itself, not a separate status element, so Flask returns the
two-element JSON array with the default HTTP status 200. -/
def analyze_check_file_type (filename : Chars) : Option HttpResponse :=
  if document_handler_exts.contains (fileExtOf filename) then none
  else some (jsonify2 (errorBody unsupportedTypeMsg) (.num false ("400".data)))

/-- The in-memory `document_store` (app.py line 40), a Python dict. -/
abbrev DocumentStore := List (Chars × Chars)

/-- Python dict assignment `document_store[doc_id] = text`. -/
def storePut : DocumentStore → Chars → Chars → DocumentStore
  | [], k, v => [(k, v)]
  | (k0, v0) :: s, k, v => if k0 = k then (k0, v) :: s else (k0, v0) :: storePut s k v

def storeLookup : DocumentStore → Chars → Option Chars
  | [], _ => none
  | (k0, v0) :: s, k => if k0 = k then some v0 else storeLookup s k

/-- `doc_id = str(hash(text))` (app.py line 338).  Python string hashes
are fixed within one process (and seed-randomized across processes), so
the hash is modelled as an arbitrary but fixed function. -/
def docId (pyHash : Chars → Int) (text : Chars) : Chars := (Int.repr (pyHash text)).data

/-- Models `analyze_document` from the successful text extraction on
(app.py lines 337-397): the store write happens first; `llm = none`
models an exception from `client.messages.create`; then the repair
pipeline decides the response.  The store is returned alongside the
response — no branch rolls the write back. -/
def analyzeAfterExtract (pyHash : Chars → Int) (store : DocumentStore) (text : Chars)
    (llm : Option Chars) : HttpResponse × DocumentStore :=
  let store2 := storePut store (docId pyHash text) text
  match llm with
  | none => (⟨errorBody ("Failed to analyze document".data), 500⟩, store2)
  | some reply =>
    match repairText reply with
    | .error .noJsonFound =>
      (⟨errorBody ("Invalid analysis format received".data), 500⟩, store2)
    | .error .unrecoverable =>
      (⟨errorBody ("Failed to process analysis results".data), 500⟩, store2)
    | .ok t =>
      (jsonify1 (.obj [("analysis".data, .str t),
        ("documentId".data, .str (docId pyHash text))]), store2)

/-- The document lookup of the `/ask` handler (app.py lines 423-426):
404 when the id is unknown, otherwise the stored text flows into the
question prompt. -/
def ask_document_lookup (store : DocumentStore) (documentId : Chars) :
    Except HttpResponse Chars :=
  match storeLookup store documentId with
  | some text => .ok text
  | none => .error ⟨errorBody ("Document not found. Please upload it again.".data), 404⟩

theorem storePut_overwrite : ∀ (s : DocumentStore) (k : Chars) (v1 v2 : Chars),
    storePut (storePut s k v1) k v2 = storePut s k v2 := by
  intro s k v1 v2
  induction s with
  | nil => simp [storePut]
  | cons kv0 s ih =>
    obtain ⟨k0, v0⟩ := kv0
    by_cases h : k0 = k
    · simp [storePut, h]
    · simp [storePut, h, ih]

theorem storeLookup_put_self : ∀ (s : DocumentStore) (k : Chars) (v : Chars),
    storeLookup (storePut s k v) k = some v := by
  intro s k v
  induction s with
  | nil => simp [storePut, storeLookup]
  | cons kv0 s ih =>
    obtain ⟨k0, v0⟩ := kv0
    by_cases h : k0 = k
    · simp [storePut, storeLookup, h]
    · simp [storePut, storeLookup, h, ih]

theorem validateEntries_ok_iff : ∀ m : List (Chars × Json),
    validateEntries m = .ok () ↔
      ∀ kv ∈ m, pyContains ("type".data) kv.2 = .ok true ∧
        pyContains ("fields".data) kv.2 = .ok true := by
  intro m
  induction m with
  | nil => simp [validateEntries]
  | cons kv rest ih =>
    obtain ⟨name, cfg⟩ := kv
    constructor
    · intro h
      rw [validateEntries] at h
      split at h
      · exact absurd h (by simp)
      · exact absurd h (by simp)
      · rename_i htype
        split at h
        · exact absurd h (by simp)
        · exact absurd h (by simp)
        · rename_i hfields
          intro kv2 hkv2
          rcases List.mem_cons.mp hkv2 with h2 | h2
          · rw [h2]
            exact ⟨htype, hfields⟩
          · exact ih.mp h kv2 h2
    · intro h
      have h1 := h (name, cfg) (by simp)
      rw [validateEntries, h1.1, h1.2]
      exact ih.mpr (fun kv2 hkv2 => h kv2 (by simp [hkv2]))

theorem analyzeAfterExtract_store (H : Chars → Int) (s : DocumentStore) (t : Chars)
    (llm : Option Chars) :
    (analyzeAfterExtract H s t llm).2 = storePut s (docId H t) t := by
  unfold analyzeAfterExtract
  cases llm with
  | none => rfl
  | some reply =>
    cases hr : repairText reply with
    | error e => cases e <;> simp [hr]
    | ok x => simp [hr]

/-! ## The claims -/

/-- The input of claim C1: the text of the spec example
`repair(... a colon-separated object holding [1 2 3] ...)`. -/
def c1Input : Chars :=
  ['{', '"', 'a', '"', ':', ' ', '[', '1', ' ', '2', ' ', '3', ']', '}']

/-- C1, counterexample: on the input the spec example promises
`repair` succeeds with the array [1,2,3] under key a; on the code the
pipeline fails, so it does not yield that value. -/
theorem c1_counterexample :
    repair c1Input
      ≠ .ok (Json.obj [(['a'],
          .arr [.num false ['1'], .num false ['2'], .num false ['3']])]) := by
  rw [show repair c1Input = Except.error RepairError.unrecoverable from rfl]
  simp

/-- C1, amended: for the spec example input the fast parse fails, the
isolated candidate is the whole text, all three comma transforms leave
it unchanged — the inter-value insertion's lookahead (quote, brace,
bracket or letter) does not include digits, so no comma is inserted
between adjacent digit runs — and the pipeline fails with
`Unrecoverable`. -/
theorem c1_amended :
    parseJson c1Input = none ∧
    isolate c1Input = some c1Input ∧
    removeTrailingCommas (fixLineBoundaryCommas (fixInterValueCommas c1Input)) = c1Input ∧
    repair c1Input = .error .unrecoverable :=
  ⟨rfl, rfl, rfl, rfl⟩

/-- C2: whenever the repair pipeline succeeds, its output text is valid
JSON denoting the same value, and re-running the pipeline — on the
output text, or on its canonical serialization — succeeds and returns a
structurally equal value (idempotence). -/
theorem c2_repair_idempotent (s t : Chars) (r : Json)
    (ht : repairText s = .ok t) (hr : repair s = .ok r) :
    parseJson t = some r ∧ repair t = .ok r ∧
      repairText t = .ok (dumpJson r) ∧ repair (dumpJson r) = .ok r :=
  repair_idem_core s t r ht hr

/-- Witness for C2 at the concrete successful input holding one pair. -/
theorem c2_repair_idempotent_witness :
    parseJson (dumpJson (Json.obj [(['a'], .num false ['1'])]))
        = some (Json.obj [(['a'], .num false ['1'])]) ∧
    repair (dumpJson (Json.obj [(['a'], .num false ['1'])]))
        = .ok (Json.obj [(['a'], .num false ['1'])]) ∧
    repairText (dumpJson (Json.obj [(['a'], .num false ['1'])]))
        = .ok (dumpJson (Json.obj [(['a'], .num false ['1'])])) ∧
    repair (dumpJson (Json.obj [(['a'], .num false ['1'])]))
        = .ok (Json.obj [(['a'], .num false ['1'])]) :=
  c2_repair_idempotent ['{', '"', 'a', '"', ':', '1', '}']
    (dumpJson (Json.obj [(['a'], .num false ['1'])]))
    (Json.obj [(['a'], .num false ['1'])]) rfl rfl

/-- C3: on a string that is already valid JSON the pipeline takes the
fast path: the parsed value is returned as-is (re-serialized
canonically) and no textual transform is applied. -/
theorem c3_fast_path (cs : Chars) (v : Json) (h : parseJson cs = some v) :
    repair cs = .ok v ∧ repairText cs = .ok (dumpJson v) :=
  repair_fast cs v h

/-- Witness for C3 at the concrete valid input `null`. -/
theorem c3_fast_path_witness :
    repair (['n', 'u', 'l', 'l']) = .ok Json.null ∧
    repairText (['n', 'u', 'l', 'l']) = .ok (dumpJson Json.null) :=
  c3_fast_path ['n', 'u', 'l', 'l'] Json.null rfl

/-- C4, counterexample: a string holding both braces with the last
closing brace before the first opening brace defeats the greedy search,
so no candidate is taken and the pipeline fails with no-JSON-found,
although the claim promises a candidate substring whenever both braces
occur. -/
theorem c4_counterexample :
    parseJson ['}', '{'] = none ∧
    '{' ∈ (['}', '{'] : Chars) ∧ '}' ∈ (['}', '{'] : Chars) ∧
    isolate ['}', '{'] = none ∧
    repair ['}', '{'] = .error .noJsonFound :=
  ⟨rfl, by decide, by decide, rfl, rfl⟩

/-- C4, amended: when the fast parse fails, the pipeline fails with
no-JSON-found if the text has no opening brace, no closing brace, or —
the amendment — no opening brace followed later by a closing brace (in
particular `repair` fails on text with no braces at all); otherwise the
candidate taken is exactly the substring from the first opening brace to
the last closing brace, inclusive. -/
theorem c4_amended :
    (∀ cs : Chars, parseJson cs = none → ('{' ∉ cs ∨ '}' ∉ cs) →
      repair cs = .error .noJsonFound) ∧
    repair ("no json here".data) = .error .noJsonFound ∧
    (∀ cs : Chars, parseJson cs = none →
      (∀ pre mid post : Chars, cs ≠ pre ++ '{' :: mid ++ '}' :: post) →
      repair cs = .error .noJsonFound) ∧
    (∀ pre mid post : Chars, '{' ∉ pre → '}' ∉ post →
      isolate (pre ++ '{' :: mid ++ '}' :: post) = some ('{' :: mid ++ ['}'])) := by
  have hNone : ∀ cs : Chars,
      (∀ pre mid post : Chars, cs ≠ pre ++ '{' :: mid ++ '}' :: post) →
      isolate cs = none := by
    intro cs hno
    cases hi : isolate cs with
    | none => rfl
    | some out =>
      obtain ⟨pre, mid, post, he⟩ := isolate_some_decomp cs out hi
      exact absurd he (hno pre mid post)
  refine ⟨?_, rfl, ?_, ?_⟩
  · intro cs hp hbr
    refine repair_noJsonFound cs hp (hNone cs ?_)
    intro pre mid post he
    rcases hbr with hb | hb
    · exact hb (by rw [he]; simp)
    · exact hb (by rw [he]; simp)
  · intro cs hp hno
    exact repair_noJsonFound cs hp (hNone cs hno)
  · intro pre mid post hpre hpost
    exact isolate_of_decomp pre mid post hpre hpost

/-- Witness for C4 at concrete inputs: braceless text fails with
no-JSON-found, and a braced span inside prose is exactly what isolation
extracts. -/
theorem c4_amended_witness :
    repair ['h', 'i'] = .error .noJsonFound ∧
    isolate (['a'] ++ '{' :: ['1'] ++ '}' :: ['b']) = some ('{' :: ['1'] ++ ['}']) :=
  ⟨c4_amended.1 ['h', 'i'] rfl (Or.inl (by decide)),
    c4_amended.2.2.2 ['a'] ['1'] ['b'] (by decide) (by decide)⟩

/-- The input of claim C5: a two-pair object with a trailing comma
before the closing brace and a newline between the pairs. -/
def c5Input : Chars :=
  ['{', '"', 'a', '"', ':', ' ', '1', ',', '\n', '"', 'b', '"', ':', ' ', '2', ',', '}']

/-- C5: on the trailing-comma input the pipeline succeeds: the comma
immediately preceding the closing brace is removed, no spurious comma is
inserted, and the value is the two-pair object. -/
theorem c5_trailing_comma :
    repairText c5Input
      = .ok (['{', '"', 'a', '"', ':', ' ', '1', ',', '\n', '"', 'b', '"', ':', ' ', '2', '}']) ∧
    repair c5Input
      = .ok (Json.obj [(['a'], .num false ['1']), (['b'], .num false ['2'])]) :=
  ⟨rfl, rfl⟩

/-- C6, counterexample: an LLM reply parsing to the empty object is
missing `visualization`, but the failure message names `name` — the
required-field loop checks `name` first — not `visualization` as the
claim promises for every such reply. -/
theorem c6_counterexample :
    create_custom_template (Json.obj []) = (.failure (missingFieldMsg ("name".data)), []) ∧
      missingFieldMsg ("name".data) ≠ missingFieldMsg ("visualization".data) :=
  ⟨rfl, by decide⟩

/-- C6, amended: for every parsed template object missing the
`visualization` field, `create_custom_template` returns a failure and
writes no template file (atomicity), and the failure message names
exactly the earliest missing required field in the check order `name`,
`description`, `prompt_template`, `visualization` — in particular it
names `visualization` precisely when the three earlier fields are all
present. -/
theorem c6_amended : ∀ m : List (Chars × Json),
    m.any (fun kv => kv.1 = ("visualization".data)) = false →
    (create_custom_template (Json.obj m)).2 = [] ∧
    (create_custom_template (Json.obj m)).1 = .failure (missingFieldMsg
      (if m.any (fun kv => kv.1 = ("name".data)) = false then ("name".data)
       else if m.any (fun kv => kv.1 = ("description".data)) = false then ("description".data)
       else if m.any (fun kv => kv.1 = ("prompt_template".data)) = false
         then ("prompt_template".data)
       else ("visualization".data))) := by
  intro m hviz
  cases hn : m.any (fun kv => kv.1 = ("name".data)) with
  | false =>
    constructor
    · simp [create_custom_template, validate_template, pyContains, pyErrStr, hn]
    · simp [create_custom_template, validate_template, pyContains, pyErrStr, hn]
  | true =>
    cases hd : m.any (fun kv => kv.1 = ("description".data)) with
    | false =>
      constructor
      · simp [create_custom_template, validate_template, pyContains, pyErrStr, hn, hd]
      · simp [create_custom_template, validate_template, pyContains, pyErrStr, hn, hd]
    | true =>
      cases hp : m.any (fun kv => kv.1 = ("prompt_template".data)) with
      | false =>
        constructor
        · simp [create_custom_template, validate_template, pyContains, pyErrStr, hn, hd, hp]
        · simp [create_custom_template, validate_template, pyContains, pyErrStr, hn, hd, hp]
      | true =>
        constructor
        · simp [create_custom_template, validate_template, pyContains, pyErrStr, hn, hd, hp, hviz]
        · simp [create_custom_template, validate_template, pyContains, pyErrStr, hn, hd, hp, hviz]

/-- Witness for C6 at the empty parsed template: the hypothesis holds by
computation, nothing is written, and the failure message names `name`,
the earliest missing required field there. -/
theorem c6_amended_witness :
    ([] : List (Chars × Json)).any (fun kv => kv.1 = ("visualization".data)) = false ∧
    (create_custom_template (Json.obj [])).2 = [] ∧
    (create_custom_template (Json.obj [])).1 = .failure (missingFieldMsg ("name".data)) :=
  ⟨rfl, (c6_amended [] rfl).1, (c6_amended [] rfl).2⟩

/-- The gauge entry of the built-in financial template
(templates.py lines 69-75): it carries `type` and the singular `field`. -/
def financialScoreViz : Json := Json.obj [
  ("type".data, .str ("gauge".data)),
  ("field".data, .str ("credit_score".data)),
  ("title".data, .str ("Credit Score".data)),
  ("min".data, .num false ['0']),
  ("max".data, .num false ("100".data))]

/-- A template with the four required fields whose visualization is the
built-in gauge entry. -/
def gaugeTemplate : Json := Json.obj [
  ("name".data, .str ("Financial Analysis".data)),
  ("description".data, .str ("Analyze financial documents and statements".data)),
  ("prompt_template".data, .str ("Analyze this financial document".data)),
  ("visualization".data, Json.obj [("score".data, financialScoreViz)])]

/-- C7, counterexample: a template whose visualization entry carries
`type` and the singular `field` key — exactly as the built-in gauge
charts do — is rejected by `validate_template`, which demands the plural
`fields`. -/
theorem c7_counterexample :
    validate_template gaugeTemplate
      = .error (.valueError (vizMissingMsg ("score".data) ("fields".data))) := rfl

/-- C7, amended: validation accepts a template exactly when the four
required fields are present (under Python membership), the
`visualization` value is a dictionary, and every visualization entry
contains both `type` and the plural `fields` (again under Python
membership); an entry carrying only the singular `field` is rejected. -/
theorem c7_amended : ∀ t : Json, validate_template t = .ok () ↔
    (pyContains ("name".data) t = .ok true ∧
     pyContains ("description".data) t = .ok true ∧
     pyContains ("prompt_template".data) t = .ok true ∧
     pyContains ("visualization".data) t = .ok true ∧
     ∃ m, pyGetItem t ("visualization".data) = .ok (Json.obj m) ∧
       ∀ kv ∈ m, pyContains ("type".data) kv.2 = .ok true ∧
         pyContains ("fields".data) kv.2 = .ok true) := by
  intro t
  constructor
  · intro h
    unfold validate_template at h
    split at h
    · exact absurd h (by simp)
    · exact absurd h (by simp)
    · rename_i h1
      split at h
      · exact absurd h (by simp)
      · exact absurd h (by simp)
      · rename_i h2
        split at h
        · exact absurd h (by simp)
        · exact absurd h (by simp)
        · rename_i h3
          split at h
          · exact absurd h (by simp)
          · exact absurd h (by simp)
          · rename_i h4
            split at h
            · exact absurd h (by simp)
            · rename_i viz h5
              split at h
              · rename_i m
                exact ⟨h1, h2, h3, h4, m, h5, (validateEntries_ok_iff m).mp h⟩
              · exact absurd h (by simp)
  · rintro ⟨h1, h2, h3, h4, m, h5, h6⟩
    unfold validate_template
    rw [h1, h2, h3, h4, h5]
    exact (validateEntries_ok_iff m).mpr h6

/-- A template that satisfies the amended acceptance condition. -/
def goodTemplate : Json := Json.obj [
  ("name".data, .str ("Generic Analysis".data)),
  ("description".data, .str ("Analyze documents".data)),
  ("prompt_template".data, .str ("Analyze this document".data)),
  ("visualization".data, Json.obj [
    ("metrics".data, Json.obj [
      ("type".data, .str ("bar".data)),
      ("fields".data, .arr [.str ("revenue".data)])])])]

/-- Witness for C7: the amended acceptance condition, applied at a
concrete well-formed template. -/
theorem c7_amended_witness : validate_template goodTemplate = .ok () :=
  (c7_amended goodTemplate).mpr
    ⟨rfl, rfl, rfl, rfl,
      [(("metrics".data : Chars), Json.obj [
        ("type".data, .str ("bar".data)),
        ("fields".data, .arr [.str ("revenue".data)])])], rfl,
      fun kv hkv => by
        simp only [List.mem_singleton] at hkv
        subst hkv
        exact ⟨rfl, rfl⟩⟩

/-- C8: on an upload with an unsupported extension the handler runs
`return jsonify({'error': ...}, 400)` — the 400 lands inside the
`jsonify` call, so the response is the two-element JSON array with HTTP
status 200, not the intended (and claimed) 400; a supported extension
passes the check. -/
theorem c8_unsupported_type_status :
    analyze_check_file_type ("doc.exe".data)
      = some (jsonify2 (errorBody unsupportedTypeMsg) (.num false ("400".data))) ∧
    (analyze_check_file_type ("doc.exe".data)).map HttpResponse.status = some 200 ∧
    analyze_check_file_type ("report.pdf".data) = none :=
  ⟨rfl, rfl, rfl⟩

/-- C9: the document id is a deterministic function of the extracted
text (the string of its in-process hash), so two uploads with equal
extracted text get equal ids, and the second upload's store write
overwrites the first entry: the store after both uploads equals the
store after the second alone. -/
theorem c9_docid_deterministic (H : Chars → Int) (s : DocumentStore) (t1 t2 : Chars)
    (llm1 llm2 : Option Chars) (h : t1 = t2) :
    docId H t1 = docId H t2 ∧
    (analyzeAfterExtract H (analyzeAfterExtract H s t1 llm1).2 t2 llm2).2
      = (analyzeAfterExtract H s t2 llm2).2 := by
  subst h
  refine ⟨rfl, ?_⟩
  rw [analyzeAfterExtract_store, analyzeAfterExtract_store, analyzeAfterExtract_store]
  exact storePut_overwrite s _ t1 t1

/-- Witness for C9 at a concrete hash function, store and text. -/
theorem c9_docid_deterministic_witness :
    docId (fun t => (t.length : Int)) ("hello".data)
      = docId (fun t => (t.length : Int)) ("hello".data) ∧
    (analyzeAfterExtract (fun t => (t.length : Int))
        (analyzeAfterExtract (fun t => (t.length : Int)) [] ("hello".data) none).2
        ("hello".data) none).2
      = (analyzeAfterExtract (fun t => (t.length : Int)) [] ("hello".data) none).2 :=
  c9_docid_deterministic (fun t => (t.length : Int)) [] ("hello".data) ("hello".data)
    none none rfl

/-- C10: when extraction succeeded but the LLM call or the repair fails,
the response is a 500 error while the store write is not rolled back:
the store still maps the document id to the extracted text, and a later
`/ask` with that id passes the document lookup. -/
theorem c10_store_survives_failure (H : Chars → Int) (s : DocumentStore) (t : Chars)
    (llm : Option Chars)
    (hfail : llm = none ∨ ∃ reply e, llm = some reply ∧ repairText reply = .error e) :
    (analyzeAfterExtract H s t llm).1.status = 500 ∧
    storeLookup (analyzeAfterExtract H s t llm).2 (docId H t) = some t ∧
    ask_document_lookup (analyzeAfterExtract H s t llm).2 (docId H t) = .ok t := by
  have hst := analyzeAfterExtract_store H s t llm
  have hlook : storeLookup (analyzeAfterExtract H s t llm).2 (docId H t) = some t := by
    rw [hst]
    exact storeLookup_put_self s _ t
  refine ⟨?_, hlook, ?_⟩
  · rcases hfail with h | ⟨reply, e, hr, he⟩
    · subst h
      rfl
    · subst hr
      cases e <;> simp [analyzeAfterExtract, he]
  · unfold ask_document_lookup
    rw [hlook]

/-- Witness for C10 with a failing LLM call at a concrete store/text. -/
theorem c10_store_survives_failure_witness :
    (analyzeAfterExtract (fun t => (t.length : Int)) [] ("hello".data) none).1.status = 500 ∧
    storeLookup (analyzeAfterExtract (fun t => (t.length : Int)) [] ("hello".data) none).2
        (docId (fun t => (t.length : Int)) ("hello".data)) = some ("hello".data) ∧
    ask_document_lookup
        (analyzeAfterExtract (fun t => (t.length : Int)) [] ("hello".data) none).2
        (docId (fun t => (t.length : Int)) ("hello".data)) = .ok ("hello".data) :=
  c10_store_survives_failure (fun t => (t.length : Int)) [] ("hello".data) none (Or.inl rfl)
